import Mathlib

/-
Verification of the document-tree engine of n1ght-mcp against its
natural-language specification.

The engine lives in src/modules/jsoneditor/jsoneditor.js (class JSONHandler)
and is duplicated near-verbatim in src/modules/yaml/yaml.js (class
YAMLHandler).  We give a shallow embedding of the JavaScript value model and
of the operations getValue / setValue / deleteValue / getAllKeys /
getStructure / searchKeyword / getPreview, and prove or refute the frozen
claims about them.

Modelling decisions (the JS fragment relevant to these functions):
* A JS value is one of: undefined, null, boolean, number, string, array,
  plain object.  Numbers are modelled as integers (every number occurring in
  the claims is an integer).  Objects are modelled as their own enumerable
  string-keyed properties in insertion order; the prototype chain and the
  exotic array property "length", as well as the special ordering of
  integer-like object keys, are outside the modelled fragment (no claim
  exercises them).  Arrays carry their element list plus their non-index
  (expando) string properties, which plain `arr[k] = v` assignment can
  create; an array hole (as produced by `delete arr[i]`) is modelled as an
  `undef` element, and the membership test `i in arr` is false on holes.
* `typeof x === "object"` holds for null, arrays and objects (isObjTyped).
* `k in x` throws a TypeError when x is null, undefined or a primitive; the
  walks below return `none` (exception) in exactly those situations.
  Property assignment on a primitive is a silent no-op (the modules are
  CommonJS files in sloppy mode); on null/undefined it throws.
* A string is canonically an array index iff it is the decimal numeral of a
  natural number with no leading zeros (toArrayIndex).
* `path.split(".")` is modelled by splitOnDot; note that in JS the empty
  string splits into a singleton list holding the empty string.
* The JSONPath branch of getValue for paths starting with '$' delegates to
  the external jsonpath-plus library and is outside the modelled fragment;
  no claim exercises it.  The '$' branch of setValue throws and is modelled.
* Failure (a thrown exception) is `none`; normal completion is `some`.
-/

inductive JVal where
  | undef : JVal
  | null : JVal
  | bool : Bool → JVal
  | num : Int → JVal
  | str : String → JVal
  | arr : List JVal → List (String × JVal) → JVal
  | obj : List (String × JVal) → JVal

/-- JS `typeof x === "object"` (true for null, arrays, plain objects). -/
def isObjTyped : JVal → Bool
  | JVal.null => true
  | JVal.arr _ _ => true
  | JVal.obj _ => true
  | _ => false

/-- JS `typeof x === "object" && x !== null`, the recursion guard used all
over the source. -/
def isObjNN : JVal → Bool
  | JVal.arr _ _ => true
  | JVal.obj _ => true
  | _ => false

/-- First binding of key k in an insertion-ordered property list. -/
def getKey : List (String × JVal) → String → Option JVal
  | [], _ => none
  | kv :: rest, k => if kv.1 = k then some kv.2 else getKey rest k

/-- JS property write: update the existing binding in place, else append. -/
def setKey : List (String × JVal) → String → JVal → List (String × JVal)
  | [], k, v => [(k, v)]
  | kv :: rest, k, v => if kv.1 = k then (k, v) :: rest else kv :: setKey rest k v

/-- JS `delete o[k]`: drop the binding of k (keeping the order of the rest). -/
def removeKey : List (String × JVal) → String → List (String × JVal)
  | [], _ => []
  | kv :: rest, k => if kv.1 = k then rest else kv :: removeKey rest k

def nthElem : List JVal → Nat → Option JVal
  | [], _ => none
  | x :: _, 0 => some x
  | _ :: rest, Nat.succ n => nthElem rest n

/-- In-bounds element update (length preserved). -/
def setIdx : List JVal → Nat → JVal → List JVal
  | [], _, _ => []
  | _ :: rest, 0, v => v :: rest
  | x :: rest, Nat.succ n, v => x :: setIdx rest n v

/-- JS `arr[i] = v`: in bounds updates the element; past the end extends the
array, filling the gap with holes (`undef`). -/
def setIdxPad : List JVal → Nat → JVal → List JVal
  | [], 0, v => [v]
  | [], Nat.succ n, v => JVal.undef :: setIdxPad [] n v
  | _ :: rest, 0, v => v :: rest
  | x :: rest, Nat.succ n, v => x :: setIdxPad rest n v

def digitsToNat (cs : List Char) : Nat :=
  cs.foldl (fun a c => a * 10 + (c.toNat - 48)) 0

/-- Canonical array index test: s is the decimal numeral of a natural number
(nonempty, all digits, no leading zero unless s = "0"). -/
def toArrayIndex (s : String) : Option Nat :=
  let cs := s.data
  if cs ≠ [] ∧ cs.all Char.isDigit ∧ (cs = ['0'] ∨ cs.head? ≠ some '0')
  then some (digitsToNat cs) else none

/-- JS `k in arr` / `arr[k]` for arrays: a canonical index hits the element
list (holes read as absent), anything else hits the expando properties. -/
def arrGet? (xs : List JVal) (props : List (String × JVal)) (k : String) :
    Option JVal :=
  match toArrayIndex k with
  | some i =>
    match nthElem xs i with
    | some JVal.undef => none
    | o => o
  | none => getKey props k

/-- JS `arr[k] = v`. -/
def arrSet (xs : List JVal) (props : List (String × JVal)) (k : String)
    (v : JVal) : JVal :=
  match toArrayIndex k with
  | some i => JVal.arr (setIdxPad xs i v) props
  | none => JVal.arr xs (setKey props k v)

/-- JS `path.split(".")` on dot-separated strings; note that the empty string
splits into [""] exactly as in JS. -/
def splitDotAux : List Char → List Char → List (List Char)
  | [], acc => [acc.reverse]
  | c :: rest, acc =>
    if c = '.' then acc.reverse :: splitDotAux rest []
    else splitDotAux rest (c :: acc)

def splitOnDot (s : String) : List String :=
  (splitDotAux s.data []).map String.mk

def startsWithDollar (s : String) : Bool :=
  match s.data with
  | c :: _ => c = '$'
  | [] => false

/-
getValue (jsoneditor.js 47-68, identically yaml.js 101-116): walk the '.'
segments; descend while the current node is a non-null object that has the
key; otherwise return undefined.
-/
def getGo : JVal → List String → JVal
  | cur, [] => cur
  | JVal.obj fs, k :: rest =>
    match getKey fs k with
    | some w => getGo w rest
    | none => JVal.undef
  | JVal.arr xs props, k :: rest =>
    match arrGet? xs props k with
    | some w => getGo w rest
    | none => JVal.undef
  | _, _ :: _ => JVal.undef

def getValue (v : JVal) (path : String) : JVal :=
  getGo v (splitOnDot path)

/-- The intermediate-step coercion of setValue (jsoneditor.js 82-85):
`if (!(key in current) || typeof current[key] !== "object") current[key] = ...`
— keep the existing value when it is present and object-typed (which
includes null and arrays), otherwise replace it by a fresh empty object. -/
def coerceNext (o : Option JVal) : JVal :=
  match o with
  | some w => if isObjTyped w then w else JVal.obj []
  | none => JVal.obj []

/-- Final assignment `current[last] = value` of setValue: objects and arrays
are written; null/undefined throw; other primitives silently no-op. -/
def setLast (cur : JVal) (k : String) (v : JVal) : Option JVal :=
  match cur with
  | JVal.obj fs => some (JVal.obj (setKey fs k v))
  | JVal.arr xs props => some (arrSet xs props k v)
  | JVal.null => none
  | JVal.undef => none
  | _ => some cur

/-
setValue walk (jsoneditor.js 70-93, identically yaml.js 118-136).  The key
list is never empty (splitOnDot never returns []); the [] equation is
unreachable and made a failure.  On null/undefined/primitive intermediates
`key in current` throws.  Note that when the walk throws, no mutation has
happened yet (assignments only ever install fresh empty objects, after which
no later step can throw), so returning none with the tree unchanged is
faithful to the in-place original.
-/
def setGo : JVal → List String → JVal → Option JVal
  | _, [], _ => none
  | cur, [k], v => setLast cur k v
  | JVal.obj fs, k :: k2 :: rest, v =>
    (setGo (coerceNext (getKey fs k)) (k2 :: rest) v).map
      (fun sub => JVal.obj (setKey fs k sub))
  | JVal.arr xs props, k :: k2 :: rest, v =>
    (setGo (coerceNext (arrGet? xs props k)) (k2 :: rest) v).map
      (fun sub => arrSet xs props k sub)
  | _, _ :: _ :: _, _ => none

def setValue (v : JVal) (path : String) (value : JVal) : Option JVal :=
  if startsWithDollar path then none
  else setGo v (splitOnDot path) value

/-- Final `delete current[last]` of deleteValue: delete of an in-bounds index
leaves a hole; delete on primitives is a sloppy-mode no-op; on
null/undefined it throws. -/
def delLast (cur : JVal) (k : String) : Option JVal :=
  match cur with
  | JVal.obj fs => some (JVal.obj (removeKey fs k))
  | JVal.arr xs props =>
    match toArrayIndex k with
    | some i =>
      some (JVal.arr (if i < xs.length then setIdx xs i JVal.undef else xs) props)
    | none => some (JVal.arr xs (removeKey props k))
  | JVal.null => none
  | JVal.undef => none
  | _ => some cur

/-
deleteValue walk (jsoneditor.js 95-113, identically yaml.js 138-156): if an
intermediate segment is missing or its value is not object-typed the call
returns the tree unchanged; object-typed values (including null!) are
descended into, and dereferencing null then throws.
-/
def delGo : JVal → List String → Option JVal
  | _, [] => none
  | cur, [k] => delLast cur k
  | JVal.obj fs, k :: k2 :: rest =>
    match getKey fs k with
    | some w =>
      if isObjTyped w then
        (delGo w (k2 :: rest)).map (fun sub => JVal.obj (setKey fs k sub))
      else some (JVal.obj fs)
    | none => some (JVal.obj fs)
  | JVal.arr xs props, k :: k2 :: rest =>
    match arrGet? xs props k with
    | some w =>
      if isObjTyped w then
        (delGo w (k2 :: rest)).map (fun sub => arrSet xs props k sub)
      else some (JVal.arr xs props)
    | none => some (JVal.arr xs props)
  | _, _ :: _ :: _ => none

def deleteValue (v : JVal) (path : String) : Option JVal :=
  delGo v (splitOnDot path)

mutual
/-- Node count of a value; used as recursion fuel where the source recurses
on the tree itself (it strictly exceeds the nesting depth). -/
def jvalSize : JVal → Nat
  | JVal.undef => 1
  | JVal.null => 1
  | JVal.bool _ => 1
  | JVal.num _ => 1
  | JVal.str _ => 1
  | JVal.arr xs props => 1 + jvalListSize xs + jfieldsSize props
  | JVal.obj fs => 1 + jfieldsSize fs

def jvalListSize : List JVal → Nat
  | [] => 0
  | x :: rest => 1 + jvalSize x + jvalListSize rest

def jfieldsSize : List (String × JVal) → Nat
  | [] => 0
  | kv :: rest => 1 + jvalSize kv.2 + jfieldsSize rest
end

def lowerStr (s : String) : String :=
  String.mk (s.data.map Char.toLower)

/-- JS String(v).  Arrays stringify as the comma-join of their elements with
null/undefined elements rendering empty; plain objects as "[object Object]".
The fuel is sizeOf of the value, which strictly exceeds the nesting depth. -/
def jsToStringF : Nat → JVal → String
  | _, JVal.undef => "undefined"
  | _, JVal.null => "null"
  | _, JVal.bool b => cond b "true" "false"
  | _, JVal.num n => toString n
  | _, JVal.str s => s
  | 0, JVal.arr _ _ => ""
  | Nat.succ f, JVal.arr xs _ =>
    String.intercalate ","
      (xs.map (fun x =>
        match x with
        | JVal.null => ""
        | JVal.undef => ""
        | y => jsToStringF f y))
  | _, JVal.obj _ => "[object Object]"

def jsToString (v : JVal) : String :=
  jsToStringF (jvalSize v) v

/-- getPreview (jsoneditor.js 306-318, identically yaml.js 285-297):
strings truncate at 100 characters, arrays and objects render as count
descriptors, everything else via String(v). -/
def getPreview : JVal → JVal
  | JVal.str s =>
    JVal.str (if 100 < s.data.length then String.mk (s.data.take 100) ++ "..." else s)
  | JVal.arr xs _ => JVal.str ("Array(" ++ toString xs.length ++ ")")
  | JVal.obj fs => JVal.str ("Object(" ++ toString fs.length ++ " keys)")
  | v => JVal.str (jsToString v)

/-- Leftmost occurrence of pattern p in t at position ≥ i (i is the absolute
index of the head of t). -/
def isPref : List Char → List Char → Bool
  | [], _ => true
  | _ :: _, [] => false
  | c :: cs, d :: ds => c = d && isPref cs ds

def findSub : List Char → List Char → Nat → Option Nat
  | [], p, i => if isPref p [] then some i else none
  | c :: rest, p, i =>
    if isPref p (c :: rest) then some i else findSub rest p (i + 1)

/-- Leftmost occurrence of p in t at position ≥ start; none when start is
past the end of t (mirroring the failure of RegExp when lastIndex exceeds
the text length). -/
def findFrom (t p : List Char) (start : Nat) : Option Nat :=
  if t.length < start then none else findSub (t.drop start) p start

/-- JS `text.includes(term)`. -/
def strContains (t p : String) : Bool :=
  (findFrom t.data p.data 0).isSome

/-- One call of `term.test(text)` on a global-flag RegExp whose pattern is the
literal string pat (the claims only exercise literal patterns): the search
starts at lastIndex li; on success lastIndex advances past the match, on
failure it resets to 0.  ci is the 'i' flag. -/
def gtest (pat : String) (ci : Bool) (text : String) (li : Nat) : Bool × Nat :=
  let p := if ci then lowerStr pat else pat
  let t := if ci then lowerStr text else text
  match findFrom t.data p.data li with
  | some i => (true, i + p.data.length)
  | none => (false, 0)

structure SOpts where
  searchKeys : Bool
  searchValues : Bool
  caseSensitive : Bool
  regex : Bool
  maxResults : Nat

/-- One record pushed into `results` by searchKeyword.  (The YAML variant
additionally stores a matchType field that always repeats mtype; it is not
modelled separately.) -/
structure SMatch where
  mtype : String
  path : String
  key : String
  value : JVal

/-- The mutable state captured by the search closure: the results array and
the lastIndex of the shared global RegExp (unused in substring mode). -/
structure SState where
  results : List SMatch
  li : Nat

/-- The `matches(text, term)` helper (jsoneditor.js 259-265): substring
containment (case-folded unless caseSensitive), or a stateful global-regex
test.  The regex was compiled once per call with flag 'g', plus 'i' unless
caseSensitive, so its lastIndex threads through every test of the walk. -/
def jsMatch (o : SOpts) (kw text : String) (li : Nat) : Bool × Nat :=
  if o.regex then gtest kw (!o.caseSensitive) text li
  else
    (if o.caseSensitive then strContains text kw
     else strContains (lowerStr text) (lowerStr kw), li)

/-- JS template `${path}[${i}]` (identical for empty path). -/
def itemPath (p : String) (i : Nat) : String :=
  p ++ "[" ++ toString i ++ "]"

def childPath (p k : String) : String :=
  if p = "" then k else p ++ "." ++ k

/-
search closure of JSONHandler.searchKeyword (jsoneditor.js 267-297).  The
cap is tested only on entry to a node; an array loops over its elements
(expando properties are not enumerated); an object loops over its keys
testing key then string-valued value, then recurses into object-typed
values.  The fuel is sizeOf of the value at the top-level call, which
strictly exceeds the recursion depth, so the fuel-exhausted equation is
unreachable from searchKeyword.
-/
def jSearchF : Nat → SOpts → String → JVal → String → SState → SState
  | 0, _, _, _, _, st => st
  | Nat.succ f, o, kw, v, path, st =>
    if o.maxResults ≤ st.results.length then st
    else
      match v with
      | JVal.arr xs _ =>
        xs.enum.foldl (fun acc q => jSearchF f o kw q.2 (itemPath path q.1) acc) st
      | JVal.obj fs =>
        fs.foldl (fun acc kv =>
          let fp := childPath path kv.1
          let acc1 :=
            if o.searchKeys then
              let m := jsMatch o kw kv.1 acc.li
              if m.1 then ⟨acc.results ++ [⟨"key", fp, kv.1, getPreview kv.2⟩], m.2⟩
              else ⟨acc.results, m.2⟩
            else acc
          let acc2 :=
            if o.searchValues then
              match kv.2 with
              | JVal.str s =>
                let m := jsMatch o kw s acc1.li
                if m.1 then ⟨acc1.results ++ [⟨"value", fp, kv.1, JVal.str s⟩], m.2⟩
                else ⟨acc1.results, m.2⟩
              | _ => acc1
            else acc1
          if isObjNN kv.2 then jSearchF f o kw kv.2 fp acc2 else acc2) st
      | _ => st

def jsonSearchKeyword (v : JVal) (kw : String) (o : SOpts) : List SMatch :=
  (jSearchF (jvalSize v) o kw v "" ⟨[], 0⟩).results

/-
search closure of YAMLHandler.searchKeyword (yaml.js 231-276): identical to
the JSON one except that the value test stringifies every value
(`String(value)`) instead of testing only string-typed values, and on a hit
pushes the raw value.
-/
def ySearchF : Nat → SOpts → String → JVal → String → SState → SState
  | 0, _, _, _, _, st => st
  | Nat.succ f, o, kw, v, path, st =>
    if o.maxResults ≤ st.results.length then st
    else
      match v with
      | JVal.arr xs _ =>
        xs.enum.foldl (fun acc q => ySearchF f o kw q.2 (itemPath path q.1) acc) st
      | JVal.obj fs =>
        fs.foldl (fun acc kv =>
          let fp := childPath path kv.1
          let acc1 :=
            if o.searchKeys then
              let m := jsMatch o kw kv.1 acc.li
              if m.1 then ⟨acc.results ++ [⟨"key", fp, kv.1, getPreview kv.2⟩], m.2⟩
              else ⟨acc.results, m.2⟩
            else acc
          let acc2 :=
            if o.searchValues then
              let m := jsMatch o kw (jsToString kv.2) acc1.li
              if m.1 then ⟨acc1.results ++ [⟨"value", fp, kv.1, kv.2⟩], m.2⟩
              else ⟨acc1.results, m.2⟩
            else acc1
          if isObjNN kv.2 then ySearchF f o kw kv.2 fp acc2 else acc2) st
      | _ => st

def yamlSearchKeyword (v : JVal) (kw : String) (o : SOpts) : List SMatch :=
  (ySearchF (jvalSize v) o kw v "" ⟨[], 0⟩).results

/-- The omitted-items marker of getAllKeys:
`${prefix}[...${len - 10} more items]`. -/
def keyMarker (p : String) (omitted : Nat) : String :=
  p ++ "[..." ++ toString omitted ++ " more items]"

/-
getAllKeys (jsoneditor.js 159-188, identically yaml.js 158-187).  The source
recurses with currentDepth + 1 under the guard currentDepth >= maxDepth, so
it is phrased here by recursion on the remaining depth
r = maxDepth - currentDepth; r = 0 is exactly the guard.  Arrays emit the
first min(10, len) index paths (recursing into object elements) plus one
trailing marker when len > 10; objects emit every key.
-/
def getAllKeysR : Nat → JVal → String → List String
  | 0, _, _ => []
  | Nat.succ r, JVal.arr xs _, p =>
    ((xs.take 10).enum.map (fun q =>
      itemPath p q.1 ::
        (if isObjNN q.2 then getAllKeysR r q.2 (itemPath p q.1) else []))).flatten
    ++ (if 10 < xs.length then [keyMarker p (xs.length - 10)] else [])
  | Nat.succ r, JVal.obj fs, p =>
    (fs.map (fun kv =>
      childPath p kv.1 ::
        (if isObjNN kv.2 then getAllKeysR r kv.2 (childPath p kv.1) else []))).flatten
  | Nat.succ _, _, _ => []

def getAllKeys (v : JVal) (p : String) (maxDepth currentDepth : Nat) :
    List String :=
  getAllKeysR (maxDepth - currentDepth) v p

/-- JS typeof as a string. -/
def jsTypeof : JVal → String
  | JVal.undef => "undefined"
  | JVal.null => "object"
  | JVal.bool _ => "boolean"
  | JVal.num _ => "number"
  | JVal.str _ => "string"
  | JVal.arr _ _ => "object"
  | JVal.obj _ => "object"

/-- The descriptor getStructure returns at the depth boundary
(jsoneditor.js 191-194): key count for an object, length for an array,
typeof for everything else (including "object" for null). -/
def boundaryDescriptor : JVal → String
  | JVal.arr xs _ => "[Array(" ++ toString xs.length ++ ")]"
  | JVal.obj fs => "\x7bObject with " ++ toString fs.length ++ " keys\x7d"
  | v => jsTypeof v

/-
getStructure (jsoneditor.js 190-215, identically yaml.js 189-214), phrased
by recursion on the remaining depth r = maxDepth - currentDepth (the source
recurses with currentDepth + 1 under the guard currentDepth >= maxDepth;
r = 0 is exactly the guard).  Below the boundary: null/undefined pass
through, scalars render as their typeof, arrays summarize a sample of their
first 3 elements, objects summarize their first 20 keys with a "N more
keys" marker.
-/
def getStructureR : Nat → JVal → JVal
  | 0, v => JVal.str (boundaryDescriptor v)
  | Nat.succ r, v =>
    match v with
    | JVal.null => JVal.null
    | JVal.undef => JVal.undef
    | JVal.bool b => JVal.str (jsTypeof (JVal.bool b))
    | JVal.num n => JVal.str (jsTypeof (JVal.num n))
    | JVal.str s => JVal.str (jsTypeof (JVal.str s))
    | JVal.arr [] _ => JVal.arr [] []
    | JVal.arr (x :: xs) _ =>
      JVal.arr
        [JVal.str ("Array(" ++ toString (x :: xs).length ++ ")"
            ++ (if 3 < (x :: xs).length then " - Sample:" else ":")),
         JVal.arr (((x :: xs).take 3).map (getStructureR r)) []] []
    | JVal.obj fs =>
      JVal.obj
        ((fs.take 20).map (fun kv => (kv.1, getStructureR r kv.2))
         ++ (if 20 < fs.length then
              [("...", JVal.str (toString (fs.length - 20) ++ " more keys"))]
             else []))

def getStructure (v : JVal) (maxDepth currentDepth : Nat) : JVal :=
  getStructureR (maxDepth - currentDepth) v

/-- Depth-d truncation of a value: at the boundary children are blanked (but
arity — array length, object keys — is kept); above it, recurse.  Array
expando properties are dropped everywhere (getStructure never reads them).
Used to state that getStructure is insensitive to anything below its depth
bound. -/
def truncAt : Nat → JVal → JVal
  | 0, JVal.arr xs _ => JVal.arr (xs.map (fun _ => JVal.null)) []
  | 0, JVal.obj fs => JVal.obj (fs.map (fun kv => (kv.1, JVal.null)))
  | 0, v => v
  | Nat.succ r, JVal.arr xs _ => JVal.arr (xs.map (truncAt r)) []
  | Nat.succ r, JVal.obj fs => JVal.obj (fs.map (fun kv => (kv.1, truncAt r kv.2)))
  | Nat.succ _, v => v

/-- The walk of deleteValue stops early (missing segment, or a segment whose
value is not object-typed) — the situations the source comments
"Path does not exist" and returns the tree unchanged from.  Mirrors the
intermediate loop of delGo. -/
def delStops : JVal → List String → Bool
  | _, [] => false
  | _, [_] => false
  | JVal.obj fs, k :: k2 :: rest =>
    (match getKey fs k with
     | some w => if isObjTyped w then delStops w (k2 :: rest) else true
     | none => true)
  | JVal.arr xs props, k :: k2 :: rest =>
    (match arrGet? xs props k with
     | some w => if isObjTyped w then delStops w (k2 :: rest) else true
     | none => true)
  | _, _ :: _ :: _ => false

theorem getKey_setKey (fs : List (String × JVal)) (k : String) (v : JVal) :
    getKey (setKey fs k v) k = some v := by
  induction fs with
  | nil => simp [setKey, getKey]
  | cons kv rest ih =>
    by_cases h : kv.1 = k
    · simp [setKey, h, getKey]
    · simp [setKey, h, getKey, ih]

theorem setKey_getKey_self (fs : List (String × JVal)) (k : String) (v : JVal)
    (h : getKey fs k = some v) : setKey fs k v = fs := by
  induction fs with
  | nil => simp [getKey] at h
  | cons kv rest ih =>
    cases kv with
    | mk k1 v1 =>
      by_cases hk : k1 = k
      · simp [getKey, hk] at h
        simp [setKey, hk, h]
      · simp [getKey, hk] at h
        simp [setKey, hk, ih h]

theorem nthElem_setIdxPad (i : Nat) (xs : List JVal) (v : JVal) :
    nthElem (setIdxPad xs i v) i = some v := by
  induction i generalizing xs with
  | zero => cases xs <;> simp [setIdxPad, nthElem]
  | succ n ih => cases xs <;> simp [setIdxPad, nthElem, ih]

theorem setIdxPad_self (i : Nat) (xs : List JVal) (v : JVal)
    (h : nthElem xs i = some v) : setIdxPad xs i v = xs := by
  induction i generalizing xs with
  | zero =>
    cases xs with
    | nil => simp [nthElem] at h
    | cons x rest => simp [nthElem] at h; simp [setIdxPad, h]
  | succ n ih =>
    cases xs with
    | nil => simp [nthElem] at h
    | cons x rest => simp [nthElem] at h; simp [setIdxPad, ih _ h]

theorem setIdxPad_lt (i : Nat) (xs : List JVal) (v : JVal)
    (h : i < xs.length) : setIdxPad xs i v = setIdx xs i v := by
  induction i generalizing xs with
  | zero =>
    cases xs with
    | nil => simp at h
    | cons x rest => simp [setIdxPad, setIdx]
  | succ n ih =>
    cases xs with
    | nil => simp at h
    | cons x rest =>
      simp at h
      simp [setIdxPad, setIdx, ih _ h]

theorem arrGet?_index (xs : List JVal) (props : List (String × JVal))
    (k : String) (i : Nat) (w : JVal) (hi : toArrayIndex k = some i)
    (h : arrGet? xs props k = some w) : nthElem xs i = some w := by
  unfold arrGet? at h
  rw [hi] at h
  cases hn : nthElem xs i with
  | none => simp [hn] at h
  | some u => cases u <;> simp [hn] at h <;> simp_all

theorem setGo_null_none (ks : List String) (v : JVal) :
    setGo JVal.null ks v = none := by
  cases ks with
  | nil => rfl
  | cons k rest => cases rest <;> rfl

theorem coerceNext_cases (o : Option JVal) :
    coerceNext o = JVal.null ∨ isObjNN (coerceNext o) = true := by
  cases o with
  | none => right; rfl
  | some w => cases w <;> simp [coerceNext, isObjTyped, isObjNN]

theorem getGo_arr_cons (xs : List JVal) (props : List (String × JVal))
    (k : String) (rest : List String) :
    getGo (JVal.arr xs props) (k :: rest) =
      (match arrGet? xs props k with
       | some w => getGo w rest
       | none => JVal.undef) := rfl

theorem getGo_obj_cons (fs : List (String × JVal)) (k : String)
    (rest : List String) :
    getGo (JVal.obj fs) (k :: rest) =
      (match getKey fs k with
       | some w => getGo w rest
       | none => JVal.undef) := rfl

theorem arrGet?_set_index (xs : List JVal) (props : List (String × JVal))
    (k : String) (i : Nat) (sub : JVal) (hi : toArrayIndex k = some i)
    (hs : isObjNN sub = true) :
    arrGet? (setIdxPad xs i sub) props k = some sub := by
  cases sub <;> simp_all [arrGet?, hi, nthElem_setIdxPad, isObjNN]

theorem arrGet?_set_prop (xs : List JVal) (props : List (String × JVal))
    (k : String) (sub : JVal) (hi : toArrayIndex k = none) :
    arrGet? xs (setKey props k sub) k = some sub := by
  unfold arrGet?
  rw [hi]
  exact getKey_setKey props k sub

theorem setGo_resolves (ks : List String) :
    ∀ (cur v cur' : JVal), isObjNN cur = true → setGo cur ks v = some cur' →
      isObjNN cur' = true ∧ getGo cur' ks = v := by
  induction ks with
  | nil =>
    intro cur v cur' _ h
    simp [setGo] at h
  | cons k rest ih =>
    cases rest with
    | nil =>
      intro cur v cur' hnn h
      cases cur with
      | obj fs =>
        simp [setGo, setLast] at h
        subst h
        refine ⟨rfl, ?_⟩
        simp [getGo, getKey_setKey]
      | arr xs props =>
        simp [setGo, setLast] at h
        subst h
        cases hi : toArrayIndex k with
        | some i =>
          refine ⟨by simp [arrSet, hi, isObjNN], ?_⟩
          cases v <;>
            simp [arrSet, hi, getGo, arrGet?, nthElem_setIdxPad]
        | none =>
          refine ⟨by simp [arrSet, hi, isObjNN], ?_⟩
          simp [arrSet, hi, getGo, arrGet?, getKey_setKey]
      | undef => simp [isObjNN] at hnn
      | null => simp [isObjNN] at hnn
      | bool b => simp [isObjNN] at hnn
      | num n => simp [isObjNN] at hnn
      | str s => simp [isObjNN] at hnn
    | cons k2 rest2 =>
      intro cur v cur' hnn h
      cases cur with
      | obj fs =>
        simp only [setGo] at h
        rcases Option.map_eq_some'.mp h with ⟨sub, hsub, hcur⟩
        rcases coerceNext_cases (getKey fs k) with hnull | hobj
        · rw [hnull, setGo_null_none] at hsub
          simp at hsub
        · obtain ⟨hsubNN, hget⟩ := ih _ _ _ hobj hsub
          subst hcur
          refine ⟨rfl, ?_⟩
          simp [getGo, getKey_setKey, hget]
      | arr xs props =>
        simp only [setGo] at h
        rcases Option.map_eq_some'.mp h with ⟨sub, hsub, hcur⟩
        rcases coerceNext_cases (arrGet? xs props k) with hnull | hobj
        · rw [hnull, setGo_null_none] at hsub
          simp at hsub
        · obtain ⟨hsubNN, hget⟩ := ih _ _ _ hobj hsub
          subst hcur
          cases hi : toArrayIndex k with
          | some i =>
            refine ⟨by simp [arrSet, hi, isObjNN], ?_⟩
            simp only [arrSet, hi]
            rw [getGo_arr_cons, arrGet?_set_index xs props k i sub hi hsubNN]
            exact hget
          | none =>
            refine ⟨by simp [arrSet, hi, isObjNN], ?_⟩
            simp only [arrSet, hi]
            rw [getGo_arr_cons, arrGet?_set_prop xs props k sub hi]
            exact hget
      | undef => simp [isObjNN] at hnn
      | null => simp [isObjNN] at hnn
      | bool b => simp [isObjNN] at hnn
      | num n => simp [isObjNN] at hnn
      | str s => simp [isObjNN] at hnn

theorem delStops_noop (ks : List String) :
    ∀ (cur : JVal), delStops cur ks = true → delGo cur ks = some cur := by
  induction ks with
  | nil => intro cur h; simp [delStops] at h
  | cons k rest ih =>
    cases rest with
    | nil => intro cur h; cases cur <;> simp [delStops] at h
    | cons k2 rest2 =>
      intro cur h
      cases cur with
      | obj fs =>
        simp only [delStops] at h
        cases hg : getKey fs k with
        | none => simp [delGo, hg]
        | some w =>
          rw [hg] at h
          by_cases hw : isObjTyped w = true
          · simp [hw] at h
            simp [delGo, hg, hw, ih _ h, setKey_getKey_self _ _ _ hg]
          · simp [delGo, hg, hw]
      | arr xs props =>
        simp only [delStops] at h
        cases hg : arrGet? xs props k with
        | none => simp [delGo, hg]
        | some w =>
          rw [hg] at h
          by_cases hw : isObjTyped w = true
          · simp [hw] at h
            have hrec := ih _ h
            cases hi : toArrayIndex k with
            | some i =>
              have hn := arrGet?_index xs props k i w hi hg
              simp [delGo, hg, hw, hrec, arrSet, hi, setIdxPad_self _ _ _ hn]
            | none =>
              have hk : getKey props k = some w := by
                unfold arrGet? at hg; rw [hi] at hg; exact hg
              simp [delGo, hg, hw, hrec, arrSet, hi, setKey_getKey_self _ _ _ hk]
          · simp [delGo, hg, hw]
      | undef => simp [delStops] at h
      | null => simp [delStops] at h
      | bool b => simp [delStops] at h
      | num n => simp [delStops] at h
      | str s => simp [delStops] at h

theorem mapCongr {α β : Type} (xs : List α) (f g : α → β)
    (h : ∀ a ∈ xs, f a = g a) : xs.map f = xs.map g := by
  induction xs with
  | nil => rfl
  | cons x rest ih =>
    simp only [List.map_cons]
    rw [h x (List.mem_cons_self x rest),
        ih (fun a ha => h a (List.mem_cons_of_mem x ha))]

theorem takeMap {α β : Type} (f : α → β) :
    ∀ (n : Nat) (xs : List α), (xs.map f).take n = (xs.take n).map f := by
  intro n xs
  rw [List.map_take]

theorem trunc_getStructureR (r : Nat) :
    ∀ v : JVal, getStructureR r (truncAt r v) = getStructureR r v := by
  induction r with
  | zero =>
    intro v
    cases v <;> simp [truncAt, getStructureR, boundaryDescriptor]
  | succ r ih =>
    intro v
    cases v with
    | undef => rfl
    | null => rfl
    | bool b => rfl
    | num n => rfl
    | str s => rfl
    | arr xs props =>
      cases xs with
      | nil => rfl
      | cons x rest =>
        have hsample :
            ((truncAt r x :: rest.map (truncAt r)).take 3).map (getStructureR r)
              = ((x :: rest).take 3).map (getStructureR r) := by
          have h1 : truncAt r x :: rest.map (truncAt r)
              = (x :: rest).map (truncAt r) := rfl
          rw [h1, takeMap, List.map_map]
          exact mapCongr _ _ _ (fun a _ => by simp [Function.comp, ih a])
        simp only [truncAt, List.map_cons, getStructureR]
        rw [hsample]
        simp [List.length_map]
    | obj fs =>
      have hfields :
          ((fs.map (fun kv => (kv.1, truncAt r kv.2))).take 20).map
              (fun kv => (kv.1, getStructureR r kv.2))
            = (fs.take 20).map (fun kv => (kv.1, getStructureR r kv.2)) := by
        rw [takeMap, List.map_map]
        exact mapCongr _ _ _ (fun a _ => by simp [Function.comp, ih a.2])
      simp only [truncAt, getStructureR]
      rw [hfields]
      simp [List.length_map]

theorem jSearchF_capped (f : Nat) (o : SOpts) (kw : String) (v : JVal)
    (path : String) (st : SState) (h : o.maxResults ≤ st.results.length) :
    jSearchF f o kw v path st = st := by
  cases f with
  | zero => rfl
  | succ f => simp [jSearchF, h]

/-- Claim C1, counterexample: with maxResults = 1, searching the tree
(red : "red") for "red" returns 2 matches (the key match and the value match
of the same entry are both pushed without re-checking the cap), so the
result length exceeds maxResults. -/
theorem search_cap_overshoot :
    (jsonSearchKeyword (JVal.obj [("red", JVal.str "red")]) "red"
        ⟨true, true, false, false, 1⟩).length = 2 ∧
    ¬ (jsonSearchKeyword (JVal.obj [("red", JVal.str "red")]) "red"
        ⟨true, true, false, false, 1⟩).length ≤ 1 :=
  ⟨rfl, by decide⟩

/-- Claim C1, amended: the cap maxResults is enforced only at node entry —
the walk enters no node (and in particular descends no further) once
maxResults matches have been collected, and with maxResults = 0 the result
is empty; but matches emitted while a Mapping is already being scanned are
not capped, so the final length can exceed maxResults. -/
theorem search_cap_entry_shortcircuit (o : SOpts) (kw : String) :
    (∀ (f : Nat) (v : JVal) (path : String) (st : SState),
        o.maxResults ≤ st.results.length → jSearchF f o kw v path st = st) ∧
    (∀ v : JVal, o.maxResults = 0 → jsonSearchKeyword v kw o = []) := by
  constructor
  · intro f v path st h
    exact jSearchF_capped f o kw v path st h
  · intro v h0
    unfold jsonSearchKeyword
    rw [jSearchF_capped _ o kw v "" ⟨[], 0⟩ (by simp [h0])]

/-- Claim C1, witness for the amended theorem at concrete inputs. -/
theorem search_cap_entry_shortcircuit_witness :
    jSearchF 5 ⟨true, true, false, false, 1⟩ "red"
        (JVal.obj [("red", JVal.str "red")]) ""
        ⟨[⟨"key", "p", "k", JVal.null⟩], 0⟩ =
      ⟨[⟨"key", "p", "k", JVal.null⟩], 0⟩ ∧
    jsonSearchKeyword (JVal.obj [("red", JVal.str "red")]) "red"
        ⟨true, true, false, false, 0⟩ = [] :=
  ⟨(search_cap_entry_shortcircuit ⟨true, true, false, false, 1⟩ "red").1
      5 _ "" _ (by decide),
   (search_cap_entry_shortcircuit ⟨true, true, false, false, 0⟩ "red").2
      _ rfl⟩

/-- Claim C2, counterexample: searching
(name : "widget", tags : ["red", "blue"]) for "red" with searchValues
enabled returns no match at all in the JSON handler — the walk recurses into
the Sequence but returns immediately on its scalar elements, and value
matching only ever fires for string values stored under a Mapping key — in
particular not the one claimed Match at path tags[0]. -/
theorem search_values_json_misses_sequence :
    jsonSearchKeyword
      (JVal.obj [("name", JVal.str "widget"),
                 ("tags", JVal.arr [JVal.str "red", JVal.str "blue"] [])])
      "red" ⟨true, true, false, false, 100⟩ = [] := rfl

/-- Claim C2, amended: value Matches are emitted only for Mapping entries —
never for Sequence elements.  In the JSON handler only string-typed entry
values are tested, so the scenario search returns no matches; in the YAML
handler every entry value is stringified first, so the scenario returns
exactly one value Match, but at path tags with the whole Sequence as its
value (String(["red","blue"]) = "red,blue" contains "red"), not at
tags[0]. -/
theorem search_values_mapping_entries_only :
    jsonSearchKeyword
      (JVal.obj [("name", JVal.str "widget"),
                 ("tags", JVal.arr [JVal.str "red", JVal.str "blue"] [])])
      "red" ⟨true, true, false, false, 100⟩ = [] ∧
    yamlSearchKeyword
      (JVal.obj [("name", JVal.str "widget"),
                 ("tags", JVal.arr [JVal.str "red", JVal.str "blue"] [])])
      "red" ⟨true, true, false, false, 100⟩ =
      [⟨"value", "tags", "tags", JVal.arr [JVal.str "red", JVal.str "blue"] []⟩] :=
  ⟨rfl, rfl⟩

/-- Claim C3, counterexample: assign through a Null intermediate fails
(typeof null is "object", so null is not overwritten by the coercion; the
subsequent dereference throws), contradicting the claim that assign never
fails regardless of the prior type of an intermediate, including Null. -/
theorem assign_null_intermediate_fails :
    setValue (JVal.obj [("a", JVal.null)]) "a.b" (JVal.num 5) = none := rfl

/-- Claim C3, amended: assign walks all segments but the last, overwriting a
missing or scalar (typeof not "object") next node with a fresh empty
Mapping — so assign({}, "a.b.c", 5) yields nested fresh Mappings, a scalar
intermediate is replaced, and the final segment is always set in the parent
Mapping — while Null and Sequence intermediates pass the typeof test and
are not overwritten: a Null intermediate makes the call fail, and a
Sequence intermediate is descended into (the key lands on the Sequence
object itself). -/
theorem assign_coercion_behavior :
    (setValue (JVal.obj []) "a.b.c" (JVal.num 5) =
      some (JVal.obj [("a", JVal.obj [("b", JVal.obj [("c", JVal.num 5)])])])) ∧
    (∀ (fs : List (String × JVal)) (k : String) (v : JVal),
      setGo (JVal.obj fs) [k] v = some (JVal.obj (setKey fs k v))) ∧
    (setValue (JVal.obj [("a", JVal.num 1)]) "a.b" (JVal.num 5) =
      some (JVal.obj [("a", JVal.obj [("b", JVal.num 5)])])) ∧
    (setValue (JVal.obj [("a", JVal.arr [JVal.num 1] [])]) "a.b" (JVal.num 5) =
      some (JVal.obj [("a", JVal.arr [JVal.num 1] [("b", JVal.num 5)])])) ∧
    (setValue (JVal.obj [("a", JVal.null)]) "a.b" (JVal.num 5) = none) :=
  ⟨rfl, fun _ _ _ => rfl, rfl, rfl, rfl⟩

/-- Claim C4, counterexample: deleting path a.b in the tree (a : null) fails
with an error (null passes the typeof "object" test of the walk, and
`delete null[k]` throws), contradicting the claim that remove never fails,
including when the parent of the final segment is Null. -/
theorem remove_null_parent_fails :
    deleteValue (JVal.obj [("a", JVal.null)]) "a.b" = none := rfl

/-- Claim C4, amended: remove is a silent no-op returning the tree unchanged
whenever the intermediate walk stops early (a segment is missing or holds a
scalar); but a Null reached by the walk is descended into and then makes
the call fail rather than no-op. -/
theorem remove_noop_on_missing_path :
    (∀ (T : JVal) (P : String),
      delStops T (splitOnDot P) = true → deleteValue T P = some T) ∧
    (deleteValue (JVal.obj [("a", JVal.null)]) "a.b" = none) := by
  constructor
  · intro T P h
    exact delStops_noop (splitOnDot P) T h
  · rfl

/-- Claim C4, witness: removing the missing path a.b from (a : 1) is a
no-op. -/
theorem remove_noop_on_missing_path_witness :
    delStops (JVal.obj [("a", JVal.num 1)]) (splitOnDot "a.b") = true ∧
    deleteValue (JVal.obj [("a", JVal.num 1)]) "a.b" =
      some (JVal.obj [("a", JVal.num 1)]) :=
  ⟨rfl, remove_noop_on_missing_path.1 (JVal.obj [("a", JVal.num 1)]) "a.b" rfl⟩

/-- Claim C5, counterexample: assign does not complete without error on
every input tree — with T = (x : null) and P = "x.y" it fails — so the
unconditional write-then-read identity does not hold as claimed. -/
theorem assign_write_read_unconditional_fails :
    setValue (JVal.obj [("x", JVal.null)]) "x.y" (JVal.num 7) = none := rfl

/-- Claim C5, amended: whenever T is a Mapping or Sequence and
assign(T, P, V) completes without error, resolving the same path in the
result returns exactly V.  (assign can fail: a Null on the walk throws.) -/
theorem assign_then_resolve (T : JVal) (P : String) (V T' : JVal)
    (hT : isObjNN T = true) (h : setValue T P V = some T') :
    getValue T' P = V := by
  unfold setValue at h
  by_cases hd : startsWithDollar P = true
  · simp [hd] at h
  · simp [hd] at h
    exact (setGo_resolves (splitOnDot P) T V T' hT h).2

/-- Claim C5, witness: assigning 7 at a.b in the empty Mapping and resolving
a.b returns 7. -/
theorem assign_then_resolve_witness :
    isObjNN (JVal.obj []) = true ∧
    getValue (JVal.obj [("a", JVal.obj [("b", JVal.num 7)])]) "a.b" = JVal.num 7 :=
  ⟨rfl, assign_then_resolve (JVal.obj []) "a.b" (JVal.num 7)
    (JVal.obj [("a", JVal.obj [("b", JVal.num 7)])]) rfl rfl⟩

/-- Claim C6, counterexample: resolve with the empty path does not return
the whole tree: on the empty Mapping it returns undefined, not the
Mapping. -/
theorem resolve_empty_path_not_whole_tree :
    getValue (JVal.obj []) "" = JVal.undef ∧ JVal.undef ≠ JVal.obj [] :=
  ⟨rfl, fun h => JVal.noConfusion h⟩

/-- Claim C6, amended: the empty path splits into one empty-string segment,
so resolve(T, "") looks up the key "" — on any Mapping without that key it
returns undefined, never the whole tree. -/
theorem resolve_empty_path_empty_key (fs : List (String × JVal))
    (h : getKey fs "" = none) : getValue (JVal.obj fs) "" = JVal.undef := by
  unfold getValue
  have hsplit : splitOnDot "" = [""] := rfl
  rw [hsplit, getGo_obj_cons, h]

/-- Claim C6, witness: on the Mapping (a : 1) the empty path resolves to
undefined. -/
theorem resolve_empty_path_empty_key_witness :
    getKey [("a", JVal.num 1)] "" = none ∧
    getValue (JVal.obj [("a", JVal.num 1)]) "" = JVal.undef :=
  ⟨rfl, resolve_empty_path_empty_key [("a", JVal.num 1)] rfl⟩

/-- Claim C7, counterexample: assign with the numeric dot path a.1 does
mutate the Sequence element in place ([1,2] becomes [1,99]), contradicting
the claim that array-indexed mutation is not supported by assign. -/
theorem assign_numeric_dot_mutates_element :
    setValue (JVal.obj [("a", JVal.arr [JVal.num 1, JVal.num 2] [])]) "a.1"
        (JVal.num 99) =
      some (JVal.obj [("a", JVal.arr [JVal.num 1, JVal.num 99] [])]) ∧
    JVal.arr [JVal.num 1, JVal.num 99] [] ≠ JVal.arr [JVal.num 1, JVal.num 2] [] :=
  ⟨rfl, by simp⟩

/-- Claim C7, amended: a numeric final dot segment addressing an existing
Sequence element is honored by assign (the element is overwritten in place)
and by remove (the element is cleared to a hole); what assign and remove
treat as ordinary Mapping keys are the bracket-suffix paths produced by
enumeration, such as "a[0]". -/
theorem assign_numeric_segment_honored :
    (∀ (fs : List (String × JVal)) (k s : String) (xs : List JVal)
        (props : List (String × JVal)) (i : Nat) (v : JVal),
      getKey fs k = some (JVal.arr xs props) → toArrayIndex s = some i →
      i < xs.length →
      setGo (JVal.obj fs) [k, s] v =
        some (JVal.obj (setKey fs k (JVal.arr (setIdx xs i v) props)))) ∧
    (deleteValue (JVal.obj [("a", JVal.arr [JVal.num 1, JVal.num 2] [])]) "a.0" =
      some (JVal.obj [("a", JVal.arr [JVal.undef, JVal.num 2] [])])) ∧
    (setValue (JVal.obj [("a", JVal.arr [JVal.num 1, JVal.num 2] [])]) "a[0]"
        (JVal.num 9) =
      some (JVal.obj [("a", JVal.arr [JVal.num 1, JVal.num 2] []),
                      ("a[0]", JVal.num 9)])) := by
  refine ⟨?_, rfl, rfl⟩
  intro fs k s xs props i v hg hi hlen
  have hset : setGo (JVal.arr xs props) [s] v
      = some (JVal.arr (setIdx xs i v) props) := by
    simp [setGo, setLast, arrSet, hi, setIdxPad_lt i xs v hlen]
  simp [setGo, hg, coerceNext, isObjTyped, hset]

/-- Claim C7, witness for the indexed-assignment rule at a concrete
Sequence. -/
theorem assign_numeric_segment_honored_witness :
    getKey [("b", JVal.arr [JVal.str "x"] [])] "b" =
      some (JVal.arr [JVal.str "x"] []) ∧
    toArrayIndex "0" = some 0 ∧ 0 < 1 ∧
    setGo (JVal.obj [("b", JVal.arr [JVal.str "x"] [])]) ["b", "0"]
        (JVal.num 7) =
      some (JVal.obj (setKey [("b", JVal.arr [JVal.str "x"] [])] "b"
        (JVal.arr (setIdx [JVal.str "x"] 0 (JVal.num 7)) []))) :=
  ⟨rfl, rfl, by decide,
   assign_numeric_segment_honored.1 [("b", JVal.arr [JVal.str "x"] [])]
     "b" "0" [JVal.str "x"] [] 0 (JVal.num 7) rfl rfl (by decide)⟩

/-- Claim C8: getStructure never looks below its depth bound — its result on
any tree equals its result on the depth-d truncation of that tree — and any
node reached at the boundary is rendered as the compact descriptor (key
count for a Mapping, length for a Sequence, typeof for anything else). -/
theorem structure_depth_bound :
    (∀ (v : JVal) (d : Nat),
      getStructure (truncAt d v) d 0 = getStructure v d 0) ∧
    (∀ (v : JVal) (maxDepth currentDepth : Nat), maxDepth ≤ currentDepth →
      getStructure v maxDepth currentDepth = JVal.str (boundaryDescriptor v)) := by
  constructor
  · intro v d
    unfold getStructure
    simpa using trunc_getStructureR d v
  · intro v maxD curD h
    unfold getStructure
    rw [Nat.sub_eq_zero_of_le h]
    rfl

/-- Claim C8, witness at a depth-4 chain summarized with bound 2, and a
boundary call. -/
theorem structure_depth_bound_witness :
    getStructure
        (truncAt 2 (JVal.obj [("a", JVal.obj [("b", JVal.obj [("c", JVal.num 5)])])]))
        2 0 =
      getStructure (JVal.obj [("a", JVal.obj [("b", JVal.obj [("c", JVal.num 5)])])])
        2 0 ∧
    getStructure (JVal.arr [JVal.num 1, JVal.num 2] []) 1 2 =
      JVal.str (boundaryDescriptor (JVal.arr [JVal.num 1, JVal.num 2] [])) :=
  ⟨structure_depth_bound.1 _ 2, structure_depth_bound.2 _ 1 2 (by decide)⟩

/-- Claim C9: below the depth bound, a Sequence longer than 10 enumerates
exactly like its first-10-elements truncation plus one trailing omitted-items
marker, while a Mapping is never capped — every key of the level appears in
the output. -/
theorem keys_sequence_capped_mapping_uncapped :
    (∀ (xs : List JVal) (props : List (String × JVal)) (p : String)
        (maxDepth currentDepth : Nat),
      currentDepth < maxDepth → 10 < xs.length →
      getAllKeys (JVal.arr xs props) p maxDepth currentDepth =
        getAllKeys (JVal.arr (xs.take 10) props) p maxDepth currentDepth
          ++ [keyMarker p (xs.length - 10)]) ∧
    (∀ (fs : List (String × JVal)) (p : String) (maxDepth currentDepth : Nat)
        (kv : String × JVal),
      currentDepth < maxDepth → kv ∈ fs →
      childPath p kv.1 ∈ getAllKeys (JVal.obj fs) p maxDepth currentDepth) := by
  constructor
  · intro xs props p maxD curD hd hlen
    obtain ⟨r, hr⟩ : ∃ r, maxD - curD = r + 1 :=
      ⟨maxD - curD - 1, (Nat.succ_pred_eq_of_pos (Nat.sub_pos_of_lt hd)).symm⟩
    have h10 : (xs.take 10).length = 10 := by
      rw [List.length_take]
      exact Nat.min_eq_left (Nat.le_of_lt hlen)
    unfold getAllKeys
    rw [hr]
    simp only [getAllKeysR]
    rw [if_pos hlen, List.take_take, Nat.min_self, h10]
    simp
  · intro fs p maxD curD kv hd hmem
    obtain ⟨r, hr⟩ : ∃ r, maxD - curD = r + 1 :=
      ⟨maxD - curD - 1, (Nat.succ_pred_eq_of_pos (Nat.sub_pos_of_lt hd)).symm⟩
    unfold getAllKeys
    rw [hr]
    simp only [getAllKeysR]
    apply List.mem_flatten.mpr
    refine ⟨childPath p kv.1 ::
      (if isObjNN kv.2 then getAllKeysR r kv.2 (childPath p kv.1) else []), ?_, ?_⟩
    · exact List.mem_map_of_mem _ hmem
    · exact List.mem_cons_self _ _

/-- Claim C9, witness on a 12-element Sequence and a 2-key Mapping. -/
theorem keys_sequence_capped_mapping_uncapped_witness :
    getAllKeys
        (JVal.arr [JVal.num 0, JVal.num 1, JVal.num 2, JVal.num 3, JVal.num 4,
                   JVal.num 5, JVal.num 6, JVal.num 7, JVal.num 8, JVal.num 9,
                   JVal.num 10, JVal.num 11] []) "" 5 0 =
      getAllKeys
        (JVal.arr ([JVal.num 0, JVal.num 1, JVal.num 2, JVal.num 3, JVal.num 4,
                    JVal.num 5, JVal.num 6, JVal.num 7, JVal.num 8, JVal.num 9,
                    JVal.num 10, JVal.num 11].take 10) []) "" 5 0
        ++ [keyMarker "" 2] ∧
    childPath "" "y" ∈
      getAllKeys (JVal.obj [("x", JVal.num 1), ("y", JVal.num 2)]) "" 5 0 :=
  ⟨keys_sequence_capped_mapping_uncapped.1 _ [] "" 5 0 (by decide) (by decide),
   keys_sequence_capped_mapping_uncapped.2 [("x", JVal.num 1), ("y", JVal.num 2)]
     "" 5 0 ("y", JVal.num 2) (by decide) (by simp)⟩

/-- Claim C10 (code bug): in regex mode the compiled pattern carries
lastIndex between tests because it is built with the global flag, so two
values with identical string content fare differently in the same walk:
searching (a : "red", b : "red") for "red" with regex enabled returns only
the match at a (the test of b starts at lastIndex 3 and fails), while the
same search in substring mode returns both. -/
theorem regex_global_flag_state :
    jsonSearchKeyword (JVal.obj [("a", JVal.str "red"), ("b", JVal.str "red")])
        "red" ⟨false, true, false, true, 100⟩ =
      [⟨"value", "a", "a", JVal.str "red"⟩] ∧
    (jsonSearchKeyword (JVal.obj [("a", JVal.str "red"), ("b", JVal.str "red")])
        "red" ⟨false, true, false, false, 100⟩).length = 2 :=
  ⟨rfl, rfl⟩
